import Mathlib

/-
Verification of the Kademlia peer implementation in kademlia.py.

The definitions below are a shallow embedding of the Python source.
Machine-level conventions used throughout:

* Python ints are modelled as `Nat` (all quantities in the source are
  non-negative; IDs are validated to lie in `[0, 2^160)` by `ID.__init__`).
* `datetime.now()` timestamps are modelled as a `Nat` parameter `now`
  threaded into the operations that call `touch()`.
* A Python function that can raise an exception is modelled as returning
  `Option`: `none` is the raising outcome.
* Python's stable `sorted(..., key=f)` is modelled by the stable
  `List.insertionSort` on the relation `f a ≤ f b`.
* Python's negative-index list access (`l[-1]`), item assignment and
  `list.insert` are modelled by `pyGet`, `pySet` and `pyInsert` below,
  which reproduce CPython's index arithmetic, bounds errors and clamping.
-/

namespace Kademlia

namespace Constants

/-- Constants.K from the source: bucket capacity. -/
def K : Nat := 20

/-- Constants.B from the source: ID width in bits. -/
def B : Nat := 160

/-- Constants.A from the source: lookup parallelism alpha. -/
def A : Nat := 3

end Constants

/-- The ID space bound: `ID.__init__` requires `0 ≤ value < 2^160`. -/
def idSpace : Nat := 2 ^ 160

/-- ID.__xor__: XOR of the two underlying integer values. -/
def idXor (a b : Nat) : Nat := a ^^^ b

/-- Contact: peer descriptor.  The Protocol handle plays no role in the
routing-table logic modelled here; `lastSeen` models the `last_seen`
timestamp mutated by `Contact.touch`. -/
structure Contact where
  id : Nat
  lastSeen : Nat
  deriving DecidableEq

/-- Binary digits of the second argument, least significant first
(empty for 0).  The first argument is structural-recursion fuel; since
a positive `m` has at most `m` binary digits, fuel `m` is enough. -/
def natBitsAux : Nat → Nat → List Bool
  | 0, _ => []
  | _ + 1, 0 => []
  | fuel + 1, m + 1 =>
    decide ((m + 1) % 2 = 1) :: natBitsAux fuel ((m + 1) / 2)

/-- Python `bin(n)[2:]`: binary digits, most significant first;
`bin(0)[2:] = "0"`, a single zero digit. -/
def pyBin (n : Nat) : List Bool :=
  if n = 0 then [false] else (natBitsAux n n).reverse

/-- `longest_shared_prefix_str` from `KBucket.shared_bits`: the longest
common prefix of two digit strings. -/
def commonPre : List Bool → List Bool → List Bool
  | a :: as, b :: bs => if a = b then a :: commonPre as bs else []
  | _, _ => []

/-- KBucket: a contact list plus an inclusive range `[low, high]`
(`KBucket.is_in_range` tests `low <= id <= high`). -/
structure KBucket where
  contacts : List Contact
  low : Nat
  high : Nat
  deriving DecidableEq

/-- KBucket.is_full: `len(contacts) >= K`. -/
def KBucket.is_full (b : KBucket) : Bool :=
  decide (Constants.K ≤ b.contacts.length)

/-- KBucket.contains: membership test by ID. -/
def KBucket.contains (b : KBucket) (id : Nat) : Bool :=
  b.contacts.any (fun c => decide (c.id = id))

/-- KBucket.is_in_range: `low <= id <= high`, inclusive at both ends. -/
def KBucket.is_in_range (b : KBucket) (id : Nat) : Bool :=
  decide (b.low ≤ id ∧ id ≤ b.high)

/-- KBucket.add_contact: raises TooManyContactsError when full and
OutOfRangeError when the ID is outside the range, else appends. -/
def KBucket.add_contact (b : KBucket) (c : Contact) : Option KBucket :=
  if b.is_full then none
  else if ¬ b.is_in_range c.id then none
  else some { b with contacts := b.contacts ++ [c] }

/-- KBucket.shared_bits: folds `longest_shared_prefix_str` over the
contacts' `id.bin()[2:]` strings.  `ID.bin()` already strips the `0b`
tag, so the additional `[2:]` in the source drops the two leading
binary digits; `(pyBin id).drop 2` reproduces exactly that.  On an
empty bucket the source raises IndexError (`contacts[0]`); that case
returns `[]` here and is never reached by `can_split`, which is only
called on full buckets. -/
def KBucket.shared_bits (b : KBucket) : List Bool :=
  match b.contacts with
  | [] => []
  | c :: rest =>
    rest.foldl (fun pre c2 => commonPre ((pyBin c2.id).drop 2) pre)
      ((pyBin c.id).drop 2)

/-- KBucket.depth: length of `shared_bits()`. -/
def KBucket.depth (b : KBucket) : Nat := b.shared_bits.length

/-- statistics.median_high: the element at index `n // 2` of the sorted
data (raises StatisticsError on empty data, modelled as `none`). -/
def median_high (l : List Nat) : Option Nat :=
  let s := List.insertionSort (· ≤ ·) l
  s.get? (l.length / 2)

/-- Loop body of `KBucket.split`: a contact with `id < midpoint` goes
to k1, any other to k2, via `KBucket.add_contact` (whose failures
propagate). -/
def split_step (midpoint : Nat) (acc : Option (KBucket × KBucket))
    (c : Contact) : Option (KBucket × KBucket) :=
  match acc with
  | none => none
  | some (k1, k2) =>
    if c.id < midpoint then
      match k1.add_contact c with
      | none => none
      | some k1' => some (k1', k2)
    else
      match k2.add_contact c with
      | none => none
      | some k2' => some (k1, k2')

/-- KBucket.split: `midpoint` is the high median of the contact IDs;
`k1 = (low, midpoint)`, `k2 = (midpoint, high)` as inclusive ranges;
each contact is distributed to a child by `split_step`. -/
def KBucket.split (b : KBucket) : Option (KBucket × KBucket) :=
  match median_high (b.contacts.map (fun c => c.id)) with
  | none => none
  | some midpoint =>
    b.contacts.foldl (split_step midpoint)
      (some (⟨[], b.low, midpoint⟩, ⟨[], midpoint, b.high⟩))

/-- KBucket.replace_contact: overwrite the entry whose ID matches and
touch it.  `list.index` has the precondition that the ID is present;
`findIdx` returns the length when it is not, in which case `List.set`
is the identity (the source would raise ValueError there). -/
def KBucket.replace_contact (b : KBucket) (c : Contact) : KBucket :=
  { b with contacts :=
      b.contacts.set (b.contacts.findIdx (fun x => decide (x.id = c.id))) c }

/-- CPython `l[i]` for int `i`: negative indices count from the end;
out-of-bounds raises IndexError (`none`). -/
def pyGet {α : Type} (l : List α) (i : Int) : Option α :=
  let j : Int := if i < 0 then (l.length : Int) + i else i
  if 0 ≤ j ∧ j < (l.length : Int) then l.get? j.toNat else none

/-- CPython `l[i] = a`: same index arithmetic as `pyGet`; out-of-bounds
raises IndexError (`none`). -/
def pySet {α : Type} (l : List α) (i : Int) (a : α) : Option (List α) :=
  let j : Int := if i < 0 then (l.length : Int) + i else i
  if 0 ≤ j ∧ j < (l.length : Int) then some (l.set j.toNat a) else none

/-- Insertion at a (clamped) non-negative position. -/
def insertAt {α : Type} : List α → Nat → α → List α
  | l, 0, a => a :: l
  | [], _ + 1, a => [a]
  | b :: l, n + 1, a => b :: insertAt l n a

/-- CPython `l.insert(i, a)`: never raises; the effective position is
clamped into `[0, len]` (negative indices count from the end). -/
def pyInsert {α : Type} (l : List α) (i : Int) (a : α) : List α :=
  let j : Int := if i < 0 then (l.length : Int) + i else i
  insertAt l (max 0 j).toNat a

/-- BucketList: ordered buckets plus our own ID. -/
structure BucketList where
  buckets : List KBucket
  our_id : Nat
  deriving DecidableEq

/-- BucketList.__init__: a single bucket with the default full range
`low = 0`, `high = 2^160`. -/
def BucketList.init (ourId : Nat) : BucketList :=
  ⟨[⟨[], 0, idSpace⟩], ourId⟩

/-- BucketList.can_split:
`kbucket.is_in_range(our_id) or (kbucket.depth() % B != 0)`. -/
def BucketList.can_split (bl : BucketList) (kb : KBucket) : Bool :=
  kb.is_in_range bl.our_id || decide (kb.depth % Constants.B ≠ 0)

/-- The loop of `BucketList._get_kbucket_index`: index of the first
bucket whose range contains the ID. -/
def find_bucket_index : List KBucket → Nat → Option Nat
  | [], _ => none
  | b :: bs, id =>
    if b.is_in_range id then some 0
    else (find_bucket_index bs id).map (· + 1)

/-- BucketList._get_kbucket_index: first in-range index, `-1` on miss. -/
def BucketList.get_kbucket_index (bl : BucketList) (id : Nat) : Int :=
  match find_bucket_index bl.buckets id with
  | some i => (i : Int)
  | none => -1

/-- BucketList.get_kbucket:
`self.buckets[self._get_kbucket_index(other_id)]`, with the IndexError
(only possible when the index is `-1` and the list is empty) converted
to OutOfRangeError, modelled as `none`.  With a non-empty list a `-1`
index silently yields the final bucket. -/
def BucketList.get_kbucket (bl : BucketList) (id : Nat) : Option KBucket :=
  pyGet bl.buckets (bl.get_kbucket_index id)

/-- BucketList.add_contact.  `fuel` bounds the source's recursion
(split then retry); `now` is the timestamp used by `touch()`.  `none`
models every raising outcome: OurNodeCannotBeAContactError, the
OutOfRangeError of `get_kbucket`, the exceptions propagated from
`KBucket.add_contact` / `split`, and the bucket-full-and-unsplittable
branch, which in the source always raises NameError (it reads the
undefined name `our_contact` before pinging).  After a split the
source recomputes `_get_kbucket_index(contact.id)` on the not yet
modified bucket list, which returns the same value as `idx`. -/
def BucketList.add_contact : Nat → Nat → BucketList → Contact → Option BucketList
  | 0, _, _, _ => none
  | fuel + 1, now, bl, c0 =>
    if bl.our_id = c0.id then none
    else
      (pyGet bl.buckets (bl.get_kbucket_index c0.id)).bind (fun kb =>
        if kb.contains c0.id then
          (pySet bl.buckets (bl.get_kbucket_index c0.id)
            (kb.replace_contact ⟨c0.id, now⟩)).map
            (fun bs => { bl with buckets := bs })
        else if kb.is_full then
          if bl.can_split kb then
            kb.split.bind (fun p =>
              (pySet bl.buckets (bl.get_kbucket_index c0.id) p.1).bind
                (fun bs =>
                  BucketList.add_contact fuel now
                    { bl with buckets :=
                        pyInsert bs (bl.get_kbucket_index c0.id + 1) p.2 }
                    ⟨c0.id, now⟩))
          else none
        else
          (kb.add_contact ⟨c0.id, now⟩).bind (fun kb2 =>
            (pySet bl.buckets (bl.get_kbucket_index c0.id) kb2).map
              (fun bs => { bl with buckets := bs })))

/-- BucketList.get_close_contacts: flatten all buckets, drop contacts
with `id == exclude`, sort ascending by `id ^ key`, take the first K. -/
def BucketList.get_close_contacts (bl : BucketList) (key exclude : Nat) :
    List Contact :=
  let contacts :=
    (bl.buckets.flatMap (fun b => b.contacts)).filter
      (fun c => decide (c.id ≠ exclude))
  (List.insertionSort (fun a b => a.id ^^^ key ≤ b.id ^^^ key) contacts).take
    Constants.K

/-- BucketList.contacts: all contacts of all buckets, in bucket order. -/
def BucketList.all_contacts (bl : BucketList) : List Contact :=
  bl.buckets.flatMap (fun b => b.contacts)

/-- In-memory key/value store (VirtualStorage's dict). -/
abbrev Storage : Type := List (Nat × String)

/-- VirtualStorage.contains: key present. -/
def storage_contains (s : Storage) (key : Nat) : Bool :=
  s.any (fun p => decide (p.1 = key))

/-- VirtualStorage lookup (dict read). -/
def storage_get (s : Storage) (key : Nat) : Option String :=
  (s.find? (fun p => decide (p.1 = key))).map (fun p => p.2)

/-- VirtualStorage.set: dict write `_store[key] = value`. -/
def storage_set (s : Storage) (key : Nat) (v : String) : Storage :=
  if storage_contains s key then
    s.map (fun p => if p.1 = key then (key, v) else p)
  else s ++ [(key, v)]

/-- Node: local endpoint.  `our_id` is `our_contact.id`; the bucket
list is created with the same ID.  Both storages are modelled as
present (the source leaves `cache_storage` as None in some
constructions, where touching it raises AttributeError). -/
structure Node where
  our_id : Nat
  bucket_list : BucketList
  storage : Storage
  cache_storage : Storage
  deriving DecidableEq

/-- Node.send_key_values_if_new_contact: the body is `pass` in the
source, so it has no effect. -/
def Node.send_key_values_if_new_contact (n : Node) (_sender : Contact) : Node :=
  n

/-- Node.ping: the body is `pass` in the source — no bucket-list update,
no state change, returns None. -/
def Node.ping (n : Node) (_sender : Contact) : Node := n

/-- Node.store: rejects a self sender, adds the sender to the bucket
list, then writes to the cache storage when `is_cached`, else calls the
no-op `send_key_values_if_new_contact` and writes to primary storage
with `Constants.EXPIRATION_TIME_SEC` (TTLs are not tracked by
VirtualStorage, so they do not appear in the model). -/
def Node.store (fuel now : Nat) (n : Node) (key : Nat) (sender : Contact)
    (val : String) (is_cached : Bool) : Option Node :=
  if sender.id = n.our_id then none
  else
    match n.bucket_list.add_contact fuel now sender with
    | none => none
    | some bl =>
      if is_cached then
        some { n with bucket_list := bl
                      cache_storage := storage_set n.cache_storage key val }
      else
        some { n with bucket_list := bl
                      storage := storage_set n.storage key val }

/-- Node.find_node: rejects a self sender, runs the no-op
`send_key_values_if_new_contact`, adds the sender to the bucket list,
and returns the K close contacts excluding the sender. -/
def Node.find_node (fuel now : Nat) (n : Node) (key : Nat) (sender : Contact) :
    Option (Node × List Contact) :=
  if sender.id = n.our_id then none
  else
    match n.bucket_list.add_contact fuel now sender with
    | none => none
    | some bl =>
      some ({ n with bucket_list := bl }, bl.get_close_contacts key sender.id)

/-- Node.find_value: rejects a self sender, runs the no-op
`send_key_values_if_new_contact`, then probes primary storage, cache
storage, and finally falls back to the close-contact list.  Unlike
`store` and `find_node` it never calls `bucket_list.add_contact`. -/
def Node.find_value (n : Node) (key : Nat) (sender : Contact) :
    Option (Node × Option (List Contact) × Option String) :=
  if sender.id = n.our_id then none
  else
    let n2 := n.send_key_values_if_new_contact sender
    if storage_contains n2.storage key then
      some (n2, none, storage_get n2.storage key)
    else if storage_contains n2.cache_storage key then
      some (n2, none, storage_get n2.cache_storage key)
    else
      some (n2, some (n2.bucket_list.get_close_contacts key sender.id), none)

/-- The seed phase of Router.lookup (before any RPC is issued):
`all_nodes = get_close_contacts(key, our_id)[0:K]`;
`nodes_to_query = all_nodes[0:A]` are classified into closer/further by
XOR distance against our own distance to the key; then the slice
`all_nodes[A + 1:]` — note: starting at index A + 1, not A — is dumped
onto `further_contacts`, and the queried nodes are recorded as
contacted.  Returns (all_nodes, closer, further, contacted). -/
def Router.lookup_seed (bl : BucketList) (key : Nat) :
    List Contact × List Contact × List Contact × List Contact :=
  let all_nodes := (bl.get_close_contacts key bl.our_id).take Constants.K
  let nodes_to_query := all_nodes.take Constants.A
  let closer_contacts :=
    nodes_to_query.filter (fun i => decide (i.id ^^^ key < bl.our_id ^^^ key))
  let further_contacts :=
    nodes_to_query.filter
      (fun i => decide (¬ (i.id ^^^ key < bl.our_id ^^^ key))) ++
      all_nodes.drop (Constants.A + 1)
  let contacted_nodes := nodes_to_query
  (all_nodes, closer_contacts, further_contacts, contacted_nodes)

/-- Router.get_closer_nodes, with the RPC response passed in as data
(`rpc_contacts`, `rpc_val`).  The source's response filter is
`contact.id.value not in [our_id, node_to_query.id, closer_contacts,
further_contacts]` — a membership test in a four-element Python list
whose last two elements are the list objects themselves; an int never
equals a list, so only the two ID comparisons filter anything.  Each
classification loop then appends a peer when its distance qualifies
and its ID is not already in that same (growing) target list. -/
def Router.get_closer_nodes (ourId key : Nat) (node_to_query : Contact)
    (rpc_contacts : List Contact) (rpc_val : Option String)
    (closer_contacts further_contacts : List Contact) :
    List Contact × List Contact × Bool :=
  let peers_nodes :=
    rpc_contacts.filter
      (fun ct => decide (ct.id ≠ ourId ∧ ct.id ≠ node_to_query.id))
  let nearest_node_distance := node_to_query.id ^^^ key
  let closer2 :=
    peers_nodes.foldl
      (fun acc p =>
        if p.id ^^^ key < nearest_node_distance ∧
            ¬ p.id ∈ acc.map (fun i => i.id) then
          acc ++ [p]
        else acc)
      closer_contacts
  let further2 :=
    peers_nodes.foldl
      (fun acc p =>
        if nearest_node_distance ≤ p.id ^^^ key ∧
            ¬ p.id ∈ acc.map (fun i => i.id) then
          acc ++ [p]
        else acc)
      further_contacts
  (closer2, further2, rpc_val.isSome)

/- ------------------------------------------------------------------ -/
/- Helper lemmas                                                       -/
/- ------------------------------------------------------------------ -/

/-- Bound used for the XOR triangle inequality, by strong induction on
the sum via an explicit bound. -/
lemma xor_le_add_aux : ∀ n a b : Nat, a + b ≤ n → a ^^^ b ≤ a + b := by
  intro n
  induction n with
  | zero =>
    intro a b h
    have ha : a = 0 := by omega
    have hb : b = 0 := by omega
    subst ha; subst hb; simp
  | succ n ih =>
    intro a b h
    by_cases h0 : a + b = 0
    · have ha : a = 0 := by omega
      have hb : b = 0 := by omega
      subst ha; subst hb; simp
    · have hdiv : (a ^^^ b) / 2 = a / 2 ^^^ b / 2 := by
        simp [Nat.xor_div_two]
      have hmod : (a ^^^ b) % 2 = (a + b) % 2 := Nat.xor_mod_two_eq
      have hrec : a / 2 ^^^ b / 2 ≤ a / 2 + b / 2 := by
        apply ih
        omega
      have e : a ^^^ b = 2 * (a / 2 ^^^ b / 2) + (a + b) % 2 := by
        conv_lhs => rw [← Nat.div_add_mod (a ^^^ b) 2]
        rw [hdiv, hmod]
      rw [e]
      revert hrec
      generalize a / 2 ^^^ b / 2 = y
      intro hrec
      omega

/-- XOR on Nat is bounded by addition. -/
lemma xor_le_add (a b : Nat) : a ^^^ b ≤ a + b :=
  xor_le_add_aux (a + b) a b le_rfl

/-- find_bucket_index only returns indices inside the list. -/
lemma find_bucket_index_lt :
    ∀ (bs : List KBucket) (id i : Nat),
      find_bucket_index bs id = some i → i < bs.length := by
  intro bs
  induction bs with
  | nil => intro id i h; simp [find_bucket_index] at h
  | cons b bs ih =>
    intro id i h
    simp only [find_bucket_index] at h
    by_cases hb : b.is_in_range id
    · simp [hb] at h
      subst h
      exact Nat.succ_pos _
    · simp [hb] at h
      obtain ⟨j, hj, rfl⟩ := h
      have hlt := ih id j hj
      simp only [List.length_cons]
      omega

/-- find_bucket_index returns an in-range bucket. -/
lemma find_bucket_index_in_range :
    ∀ (bs : List KBucket) (id i : Nat) (h : i < bs.length),
      find_bucket_index bs id = some i →
      (bs.get ⟨i, h⟩).is_in_range id = true := by
  intro bs
  induction bs with
  | nil => intro id i h; simp at h
  | cons b bs ih =>
    intro id i h hfind
    simp only [find_bucket_index] at hfind
    by_cases hb : b.is_in_range id
    · simp [hb] at hfind
      subst hfind
      simpa using hb
    · simp [hb] at hfind
      obtain ⟨j, hj, rfl⟩ := hfind
      have hjlt := find_bucket_index_lt bs id j hj
      simpa using ih id j hjlt hj

/-- find_bucket_index misses exactly when no bucket is in range. -/
lemma find_bucket_index_eq_none :
    ∀ (bs : List KBucket) (id : Nat),
      find_bucket_index bs id = none ↔ ∀ b ∈ bs, b.is_in_range id = false := by
  intro bs
  induction bs with
  | nil => intro id; simp [find_bucket_index]
  | cons b bs ih =>
    intro id
    simp only [find_bucket_index]
    by_cases hb : b.is_in_range id = true
    · rw [if_pos hb]
      constructor
      · intro h; simp at h
      · intro h
        have h2 := h b (List.mem_cons_self b bs)
        rw [h2] at hb
        simp at hb
    · have hb' : b.is_in_range id = false := by simpa using hb
      rw [if_neg hb]
      rw [Option.map_eq_none', ih]
      constructor
      · intro h b' hb'2
        rcases List.mem_cons.mp hb'2 with rfl | hmem
        · exact hb'
        · exact h b' hmem
      · intro h b' hmem
        exact h b' (List.mem_cons_of_mem b hmem)

/-- Python `l[-1]` is `getLast?`. -/
lemma pyGet_neg_one {α : Type} (l : List α) : pyGet l (-1) = l.getLast? := by
  cases l with
  | nil => rfl
  | cons a l =>
    have step : pyGet (a :: l) (-1) = (a :: l).get? l.length := by
      simp only [pyGet]
      have hc : ((-1 : Int) < 0) := by omega
      rw [if_pos hc]
      have hj : ((a :: l).length : Int) + -1 = (l.length : Int) := by
        simp only [List.length_cons]
        omega
      rw [hj]
      have h0 : (0 : Int) ≤ (l.length : Int) := by omega
      have h1 : (l.length : Int) < ((a :: l).length : Int) := by
        simp only [List.length_cons]
        omega
      rw [if_pos ⟨h0, h1⟩]
      have h4 : ((l.length : Int)).toNat = l.length := by omega
      rw [h4]
    rw [step, List.getLast?_eq_getElem?, List.get?_eq_getElem?]
    simp only [List.length_cons, Nat.add_sub_cancel]

/-- Python `l[i]` for a Nat index in bounds. -/
lemma pyGet_nat {α : Type} (l : List α) (i : Nat) (h : i < l.length) :
    pyGet l (i : Int) = some (l.get ⟨i, h⟩) := by
  simp only [pyGet]
  have h0 : ¬ ((i : Int) < 0) := by omega
  rw [if_neg h0]
  have h1 : (0 : Int) ≤ (i : Int) := by omega
  have h2 : (i : Int) < (l.length : Int) := by exact_mod_cast h
  rw [if_pos ⟨h1, h2⟩]
  have h3 : ((i : Int)).toNat = i := by omega
  rw [h3, List.get?_eq_get h]

/-- Python `l[i] = a` for a Nat index in bounds. -/
lemma pySet_nat {α : Type} (l : List α) (i : Nat) (a : α) (h : i < l.length) :
    pySet l (i : Int) a = some (l.set i a) := by
  simp only [pySet]
  have h0 : ¬ ((i : Int) < 0) := by omega
  rw [if_neg h0]
  have h1 : (0 : Int) ≤ (i : Int) := by omega
  have h2 : (i : Int) < (l.length : Int) := by exact_mod_cast h
  rw [if_pos ⟨h1, h2⟩]
  have h3 : ((i : Int)).toNat = i := by omega
  rw [h3]

/-- Characterization of a successful KBucket.add_contact. -/
lemma KBucket.add_contact_eq_some {b : KBucket} {c : Contact} {b' : KBucket} :
    b.add_contact c = some b' ↔
      b.contacts.length < Constants.K ∧ b.is_in_range c.id = true ∧
      b' = { b with contacts := b.contacts ++ [c] } := by
  unfold KBucket.add_contact KBucket.is_full
  by_cases h1 : Constants.K ≤ b.contacts.length
  · have hcond : (decide (Constants.K ≤ b.contacts.length)) = true := by
      simpa using h1
    rw [if_pos hcond]
    constructor
    · intro h; cases h
    · intro h; omega
  · by_cases h2 : b.is_in_range c.id = true
    · simp [h1, h2, eq_comm]
      omega
    · simp [h1, h2]

/-- A failed split fold stays failed. -/
lemma split_step_foldl_none (m : Nat) :
    ∀ cs : List Contact, cs.foldl (split_step m) none = none := by
  intro cs
  induction cs with
  | nil => rfl
  | cons c cs ih => simpa [split_step] using ih

/-- What a successful split fold produces: the children keep their
ranges and accumulate exactly the contacts on their side of the
midpoint, in order. -/
lemma split_step_foldl_characterize (m : Nat) :
    ∀ (cs : List Contact) (k1 k2 r1 r2 : KBucket),
      cs.foldl (split_step m) (some (k1, k2)) = some (r1, r2) →
      r1.low = k1.low ∧ r1.high = k1.high ∧ r2.low = k2.low ∧
      r2.high = k2.high ∧
      r1.contacts = k1.contacts ++ cs.filter (fun c => decide (c.id < m)) ∧
      r2.contacts = k2.contacts ++ cs.filter (fun c => decide (m ≤ c.id)) := by
  intro cs
  induction cs with
  | nil =>
    intro k1 k2 r1 r2 h
    simp only [List.foldl_nil, Option.some_inj, Prod.mk.injEq] at h
    obtain ⟨rfl, rfl⟩ := h
    simp
  | cons c cs ih =>
    intro k1 k2 r1 r2 h
    rw [List.foldl_cons] at h
    by_cases hc : c.id < m
    · have hfilter1 : (c :: cs).filter (fun c => decide (c.id < m)) =
          c :: cs.filter (fun c => decide (c.id < m)) :=
        List.filter_cons_of_pos (by simpa using hc)
      have hfilter2 : (c :: cs).filter (fun c => decide (m ≤ c.id)) =
          cs.filter (fun c => decide (m ≤ c.id)) :=
        List.filter_cons_of_neg (by simpa using hc)
      rcases hk : k1.add_contact c with _ | k1'
      · rw [show split_step m (some (k1, k2)) c = none by
            simp [split_step, hc, hk]] at h
        rw [split_step_foldl_none] at h
        cases h
      · rw [show split_step m (some (k1, k2)) c = some (k1', k2) by
            simp [split_step, hc, hk]] at h
        obtain ⟨hl, hh, hl2, hh2, hc1, hc2⟩ := ih k1' k2 r1 r2 h
        obtain ⟨-, -, rfl⟩ := KBucket.add_contact_eq_some.mp hk
        refine ⟨hl, hh, hl2, hh2, ?_, ?_⟩
        · rw [hc1, hfilter1]
          simp
        · rw [hc2, hfilter2]
    · have hcle : m ≤ c.id := Nat.not_lt.mp hc
      have hfilter1 : (c :: cs).filter (fun c => decide (c.id < m)) =
          cs.filter (fun c => decide (c.id < m)) :=
        List.filter_cons_of_neg (by simpa using hc)
      have hfilter2 : (c :: cs).filter (fun c => decide (m ≤ c.id)) =
          c :: cs.filter (fun c => decide (m ≤ c.id)) :=
        List.filter_cons_of_pos (by simpa using hcle)
      rcases hk : k2.add_contact c with _ | k2'
      · rw [show split_step m (some (k1, k2)) c = none by
            simp [split_step, hc, hk]] at h
        rw [split_step_foldl_none] at h
        cases h
      · rw [show split_step m (some (k1, k2)) c = some (k1, k2') by
            simp [split_step, hc, hk]] at h
        obtain ⟨hl, hh, hl2, hh2, hc1, hc2⟩ := ih k1 k2' r1 r2 h
        obtain ⟨-, -, rfl⟩ := KBucket.add_contact_eq_some.mp hk
        refine ⟨hl, hh, hl2, hh2, ?_, ?_⟩
        · rw [hc1, hfilter1]
        · rw [hc2, hfilter2]
          simp

/-- The split fold succeeds when each contact fits its side's range
and neither side's final population exceeds K. -/
lemma split_step_foldl_success (m : Nat) :
    ∀ (cs : List Contact) (k1 k2 : KBucket),
      (∀ c ∈ cs, c.id < m → k1.is_in_range c.id = true) →
      (∀ c ∈ cs, ¬ c.id < m → k2.is_in_range c.id = true) →
      k1.contacts.length + (cs.filter (fun c => decide (c.id < m))).length ≤
        Constants.K →
      k2.contacts.length +
        (cs.filter (fun c => decide (m ≤ c.id))).length ≤ Constants.K →
      ∃ r1 r2, cs.foldl (split_step m) (some (k1, k2)) = some (r1, r2) := by
  intro cs
  induction cs with
  | nil => intro k1 k2 _ _ _ _; exact ⟨k1, k2, rfl⟩
  | cons c cs ih =>
    intro k1 k2 hr1 hr2 hb1 hb2
    by_cases hc : c.id < m
    · have hfilter1 : (c :: cs).filter (fun c => decide (c.id < m)) =
          c :: cs.filter (fun c => decide (c.id < m)) :=
        List.filter_cons_of_pos (by simpa using hc)
      have hfilter2 : (c :: cs).filter (fun c => decide (m ≤ c.id)) =
          cs.filter (fun c => decide (m ≤ c.id)) :=
        List.filter_cons_of_neg (by simpa using hc)
      rw [hfilter1] at hb1
      rw [hfilter2] at hb2
      simp only [List.length_cons] at hb1
      have hlen : k1.contacts.length < Constants.K := by omega
      have hadd : k1.add_contact c =
          some { k1 with contacts := k1.contacts ++ [c] } :=
        KBucket.add_contact_eq_some.mpr
          ⟨hlen, hr1 c (List.mem_cons_self c cs) hc, rfl⟩
      rw [List.foldl_cons,
        show split_step m (some (k1, k2)) c =
          some ({ k1 with contacts := k1.contacts ++ [c] }, k2) by
            simp [split_step, hc, hadd]]
      apply ih
      · intro c' hc' h'; exact hr1 c' (List.mem_cons_of_mem c hc') h'
      · intro c' hc' h'; exact hr2 c' (List.mem_cons_of_mem c hc') h'
      · simp only [List.length_append, List.length_cons, List.length_nil]
        omega
      · exact hb2
    · have hcle : m ≤ c.id := Nat.not_lt.mp hc
      have hfilter1 : (c :: cs).filter (fun c => decide (c.id < m)) =
          cs.filter (fun c => decide (c.id < m)) :=
        List.filter_cons_of_neg (by simpa using hc)
      have hfilter2 : (c :: cs).filter (fun c => decide (m ≤ c.id)) =
          c :: cs.filter (fun c => decide (m ≤ c.id)) :=
        List.filter_cons_of_pos (by simpa using hcle)
      rw [hfilter1] at hb1
      rw [hfilter2] at hb2
      simp only [List.length_cons] at hb2
      have hlen : k2.contacts.length < Constants.K := by omega
      have hadd : k2.add_contact c =
          some { k2 with contacts := k2.contacts ++ [c] } :=
        KBucket.add_contact_eq_some.mpr
          ⟨hlen, hr2 c (List.mem_cons_self c cs) hc, rfl⟩
      rw [List.foldl_cons,
        show split_step m (some (k1, k2)) c =
          some (k1, { k2 with contacts := k2.contacts ++ [c] }) by
            simp [split_step, hc, hadd]]
      apply ih
      · intro c' hc' h'; exact hr1 c' (List.mem_cons_of_mem c hc') h'
      · intro c' hc' h'; exact hr2 c' (List.mem_cons_of_mem c hc') h'
      · exact hb1
      · simp only [List.length_append, List.length_cons, List.length_nil]
        omega

/-- A sorted list of distinct naturals is strictly increasing. -/
lemma insertionSort_pairwise_lt (l : List Nat) (h : l.Nodup) :
    (List.insertionSort (· ≤ ·) l).Pairwise (· < ·) := by
  have hs : (List.insertionSort (· ≤ ·) l).Sorted (· ≤ ·) :=
    List.sorted_insertionSort (· ≤ ·) l
  have hn : (List.insertionSort (· ≤ ·) l).Nodup :=
    (List.perm_insertionSort (· ≤ ·) l).nodup_iff.mpr h
  exact (hs.and hn).imp (fun hab => lt_of_le_of_ne hab.1 hab.2)

/-- The high median of a list of at least two distinct naturals is a
member with a strictly smaller member below it; with at least three
elements there is also a strictly larger member. -/
lemma median_high_facts (l : List Nat) (hnd : l.Nodup) (h2 : 2 ≤ l.length) :
    ∃ m, median_high l = some m ∧ m ∈ l ∧ (∃ x ∈ l, x < m) ∧
      (3 ≤ l.length → ∃ y ∈ l, m < y) := by
  have hlen : (List.insertionSort (· ≤ ·) l).length = l.length :=
    List.length_insertionSort (· ≤ ·) l
  have hidx : l.length / 2 < (List.insertionSort (· ≤ ·) l).length := by
    omega
  have h0 : 0 < l.length / 2 := by omega
  have h0' : 0 < (List.insertionSort (· ≤ ·) l).length := by omega
  have hlt := insertionSort_pairwise_lt l hnd
  rw [List.pairwise_iff_get] at hlt
  refine ⟨(List.insertionSort (· ≤ ·) l).get ⟨l.length / 2, hidx⟩, ?_, ?_, ?_, ?_⟩
  · unfold median_high
    exact List.get?_eq_get hidx
  · have := List.get_mem (List.insertionSort (· ≤ ·) l) _ hidx
    exact (List.perm_insertionSort (· ≤ ·) l).subset this
  · refine ⟨(List.insertionSort (· ≤ ·) l).get ⟨0, h0'⟩, ?_, ?_⟩
    · have := List.get_mem (List.insertionSort (· ≤ ·) l) _ h0'
      exact (List.perm_insertionSort (· ≤ ·) l).subset this
    · exact hlt ⟨0, h0'⟩ ⟨l.length / 2, hidx⟩ h0
  · intro h3
    have hidx2 : l.length / 2 + 1 < (List.insertionSort (· ≤ ·) l).length := by
      omega
    refine ⟨(List.insertionSort (· ≤ ·) l).get ⟨l.length / 2 + 1, hidx2⟩, ?_, ?_⟩
    · have := List.get_mem (List.insertionSort (· ≤ ·) l) _ hidx2
      exact (List.perm_insertionSort (· ≤ ·) l).subset this
    · exact hlt ⟨l.length / 2, hidx⟩ ⟨l.length / 2 + 1, hidx2⟩ (by simp)

/- ------------------------------------------------------------------ -/
/- Claim theorems: C9, C10, C6, C3, C4, C5                             -/
/- ------------------------------------------------------------------ -/

/-- C9: for IDs below 2^160, the XOR distance of `ID.__xor__` is
symmetric, is zero exactly on equal arguments, and satisfies the
triangle inequality. -/
theorem c9_xor_metric (a b c : Nat) (ha : a < idSpace) (hb : b < idSpace)
    (hc : c < idSpace) :
    idXor a b = idXor b a ∧ idXor a a = 0 ∧ (idXor a b = 0 ↔ a = b) ∧
    idXor a c ≤ idXor a b + idXor b c := by
  refine ⟨Nat.xor_comm a b, Nat.xor_self a, Nat.xor_eq_zero, ?_⟩
  have hsplit : (a ^^^ b) ^^^ (b ^^^ c) = a ^^^ c := by
    rw [Nat.xor_assoc, Nat.xor_cancel_left]
  calc idXor a c = (a ^^^ b) ^^^ (b ^^^ c) := hsplit.symm
    _ ≤ (a ^^^ b) + (b ^^^ c) := xor_le_add _ _
    _ = idXor a b + idXor b c := rfl

/-- Witness for C9 at the concrete IDs 1, 2, 3. -/
theorem c9_xor_metric_witness :
    idXor 1 2 = idXor 2 1 ∧ idXor 1 1 = 0 ∧ (idXor 1 2 = 0 ↔ 1 = 2) ∧
    idXor 1 3 ≤ idXor 1 2 + idXor 2 3 :=
  c9_xor_metric 1 2 3 (by norm_num [idSpace]) (by norm_num [idSpace])
    (by norm_num [idSpace])

/-- C10: when the buckets list is non-empty and no bucket's range
contains the ID, `_get_kbucket_index` returns `-1` and Python's
negative indexing makes `get_kbucket` return the final bucket instead
of raising; the OutOfRangeError branch (result `none`) is reachable
exactly when the buckets list is empty. -/
theorem c10_get_kbucket_miss (bl : BucketList) (id : Nat)
    (hmiss : ∀ b ∈ bl.buckets, b.is_in_range id = false) :
    bl.get_kbucket id = bl.buckets.getLast? ∧
    (bl.get_kbucket id = none ↔ bl.buckets = []) := by
  have hidx : bl.get_kbucket_index id = -1 := by
    unfold BucketList.get_kbucket_index
    rw [(find_bucket_index_eq_none bl.buckets id).mpr hmiss]
  have hget : bl.get_kbucket id = bl.buckets.getLast? := by
    unfold BucketList.get_kbucket
    rw [hidx, pyGet_neg_one]
  refine ⟨hget, ?_⟩
  rw [hget]
  cases bl.buckets with
  | nil => simp
  | cons a l => simp [List.getLast?_eq_getElem?]

/-- Witness for C10: a single bucket with range `[10, 20]` and the
out-of-range ID 5. -/
theorem c10_get_kbucket_miss_witness :
    BucketList.get_kbucket ⟨[⟨[], 10, 20⟩], 0⟩ 5 =
      ([⟨[], 10, 20⟩] : List KBucket).getLast? ∧
    (BucketList.get_kbucket ⟨[⟨[], 10, 20⟩], 0⟩ 5 = none ↔
      ([⟨[], 10, 20⟩] : List KBucket) = []) :=
  c10_get_kbucket_miss ⟨[⟨[], 10, 20⟩], 0⟩ 5 (by decide)

/-- C6: the claim says a singleton bucket has depth 160; the source's
double truncation (`bin()` strips `0b`, then `[2:]` strips two more
digits) gives depth 1 for a bucket holding the sole contact ID 5. -/
theorem c6_depth_eval : KBucket.depth ⟨[⟨5, 0⟩], 0, idSpace⟩ = 1 := by decide

/-- C3: with five seed contacts of IDs 1..5 (all closer to key 0 than
our ID 100), the seed phase of Router.lookup queries IDs 1, 2, 3 and
dumps only `all_nodes[4:]` onto further_contacts, so the contact at
index 3 (ID 4) lands in neither closer_contacts nor further_contacts. -/
theorem c3_seed_drops_alpha_index :
    (Router.lookup_seed ⟨[⟨[⟨1, 0⟩, ⟨2, 0⟩, ⟨3, 0⟩, ⟨4, 0⟩, ⟨5, 0⟩], 0,
        idSpace⟩], 100⟩ 0).1.map (fun c => c.id) = [1, 2, 3, 4, 5] ∧
    (Router.lookup_seed ⟨[⟨[⟨1, 0⟩, ⟨2, 0⟩, ⟨3, 0⟩, ⟨4, 0⟩, ⟨5, 0⟩], 0,
        idSpace⟩], 100⟩ 0).2.1.map (fun c => c.id) = [1, 2, 3] ∧
    (Router.lookup_seed ⟨[⟨[⟨1, 0⟩, ⟨2, 0⟩, ⟨3, 0⟩, ⟨4, 0⟩, ⟨5, 0⟩], 0,
        idSpace⟩], 100⟩ 0).2.2.1.map (fun c => c.id) = [5] := by
  refine ⟨?_, ?_, ?_⟩ <;> decide

/-- C4: the response filter of get_closer_nodes compares the peer ID
with the closer/further list objects (never equal in Python), so a
peer whose ID is already in closer_contacts is re-classified: with the
queried node at distance 3 and the responding peer ID 6 already in
closer_contacts, the peer is appended to further_contacts, duplicating
ID 6 across the two sets. -/
theorem c4_cross_set_duplicate :
    (Router.get_closer_nodes 1000 0 ⟨3, 0⟩ [⟨6, 0⟩] none [⟨6, 0⟩] []).1.map
        (fun c => c.id) = [6] ∧
    (Router.get_closer_nodes 1000 0 ⟨3, 0⟩ [⟨6, 0⟩] none [⟨6, 0⟩] []).2.1.map
        (fun c => c.id) = [6] := by
  refine ⟨?_, ?_⟩ <;> decide

/-- C7: get_close_contacts returns at most K contacts, none equal to
the excluded ID, sorted ascending by XOR distance to the key, and the
kept contacts are closest: the dropped remainder completes a
permutation of all non-excluded contacts and every dropped contact is
at least as far from the key as every kept one. -/
theorem c7_get_close_contacts (bl : BucketList) (key exclude : Nat) :
    (bl.get_close_contacts key exclude).length ≤ Constants.K ∧
    (∀ c ∈ bl.get_close_contacts key exclude, c.id ≠ exclude) ∧
    (bl.get_close_contacts key exclude).Pairwise
      (fun a b => a.id ^^^ key ≤ b.id ^^^ key) ∧
    ∃ rest : List Contact,
      List.Perm (bl.get_close_contacts key exclude ++ rest)
        (bl.all_contacts.filter (fun c => decide (c.id ≠ exclude))) ∧
      ∀ a ∈ bl.get_close_contacts key exclude, ∀ b ∈ rest,
        a.id ^^^ key ≤ b.id ^^^ key := by
  haveI : IsTotal Contact (fun a b => a.id ^^^ key ≤ b.id ^^^ key) :=
    ⟨fun a b => Nat.le_total _ _⟩
  haveI : IsTrans Contact (fun a b => a.id ^^^ key ≤ b.id ^^^ key) :=
    ⟨fun _ _ _ => Nat.le_trans⟩
  have hperm := List.perm_insertionSort
    (fun a b : Contact => a.id ^^^ key ≤ b.id ^^^ key)
    ((bl.buckets.flatMap (fun b => b.contacts)).filter
      (fun c => decide (c.id ≠ exclude)))
  have hsort := List.sorted_insertionSort
    (fun a b : Contact => a.id ^^^ key ≤ b.id ^^^ key)
    ((bl.buckets.flatMap (fun b => b.contacts)).filter
      (fun c => decide (c.id ≠ exclude)))
  have hres : bl.get_close_contacts key exclude =
      (List.insertionSort (fun a b : Contact => a.id ^^^ key ≤ b.id ^^^ key)
        ((bl.buckets.flatMap (fun b => b.contacts)).filter
          (fun c => decide (c.id ≠ exclude)))).take Constants.K := rfl
  rw [hres]
  refine ⟨List.length_take_le _ _, ?_, ?_,
    ⟨(List.insertionSort (fun a b : Contact => a.id ^^^ key ≤ b.id ^^^ key)
        ((bl.buckets.flatMap (fun b => b.contacts)).filter
          (fun c => decide (c.id ≠ exclude)))).drop Constants.K, ?_, ?_⟩⟩
  · intro c hc
    have hc2 := List.mem_of_mem_take hc
    have hc3 := hperm.mem_iff.mp hc2
    have hc4 := List.of_mem_filter hc3
    simpa using hc4
  · exact hsort.sublist (List.take_sublist _ _)
  · rw [List.take_append_drop]
    exact hperm
  · intro a ha b hb
    have hpw : ((List.insertionSort
          (fun a b : Contact => a.id ^^^ key ≤ b.id ^^^ key)
          ((bl.buckets.flatMap (fun b => b.contacts)).filter
            (fun c => decide (c.id ≠ exclude)))).take Constants.K ++
        (List.insertionSort (fun a b : Contact => a.id ^^^ key ≤ b.id ^^^ key)
          ((bl.buckets.flatMap (fun b => b.contacts)).filter
            (fun c => decide (c.id ≠ exclude)))).drop Constants.K).Pairwise
        (fun a b => a.id ^^^ key ≤ b.id ^^^ key) := by
      rw [List.take_append_drop]
      exact hsort
    exact (List.pairwise_append.mp hpw).2.2 a ha b hb

/-- C5: on a fresh node with our ID 1, `find_value` from sender ID 7
answers without inserting the sender (the bucket list stays empty) and
`ping` is a stub that does nothing, while `find_node` and `store` do
insert the sender. -/
theorem c5_find_value_and_ping_skip_sender :
    (Node.find_value ⟨1, BucketList.init 1, [], []⟩ 9 ⟨7, 0⟩).map
        (fun r => r.1.bucket_list.all_contacts) = some [] ∧
    Node.ping ⟨1, BucketList.init 1, [], []⟩ ⟨7, 0⟩ =
      ⟨1, BucketList.init 1, [], []⟩ ∧
    (Node.find_node 200 0 ⟨1, BucketList.init 1, [], []⟩ 9 ⟨7, 0⟩).map
        (fun r => r.1.bucket_list.all_contacts.map (fun c => c.id)) =
      some [7] ∧
    (Node.store 200 0 ⟨1, BucketList.init 1, [], []⟩ 9 ⟨7, 0⟩ "v" false).map
        (fun r => r.bucket_list.all_contacts.map (fun c => c.id)) =
      some [7] := by
  refine ⟨?_, ?_, ?_, ?_⟩ <;> decide

/-- C2 counterexample: on the non-empty singleton bucket holding the
sole contact ID 7, the high median is 7 itself, so k1 receives zero
contacts — refuting the claim that both children of a non-empty bucket
receive at least one contact. -/
theorem c2_counterexample :
    (KBucket.split ⟨[⟨7, 0⟩], 0, idSpace⟩).map
      (fun p => (p.1.contacts.length, p.2.contacts.length)) = some (0, 1) := by
  decide

/-- Full specification of a successful split on a well-formed bucket
with at least two contacts. -/
lemma split_spec (b : KBucket)
    (h2 : 2 ≤ b.contacts.length)
    (hK : b.contacts.length ≤ Constants.K)
    (hnd : (b.contacts.map (fun c => c.id)).Nodup)
    (hir : ∀ c ∈ b.contacts, b.low ≤ c.id ∧ c.id ≤ b.high) :
    ∃ m k1 k2,
      median_high (b.contacts.map (fun c => c.id)) = some m ∧
      b.split = some (k1, k2) ∧
      k1.low = b.low ∧ k1.high = m ∧ k2.low = m ∧ k2.high = b.high ∧
      k1.contacts = b.contacts.filter (fun c => decide (c.id < m)) ∧
      k2.contacts = b.contacts.filter (fun c => decide (m ≤ c.id)) ∧
      k1.contacts ≠ [] ∧ k2.contacts ≠ [] ∧
      List.Perm (k1.contacts ++ k2.contacts) b.contacts := by
  obtain ⟨m, hmed, hmem, ⟨x, hxmem, hxlt⟩, -⟩ :=
    median_high_facts (b.contacts.map (fun c => c.id)) hnd
      (by simpa using h2)
  obtain ⟨cm, hcmmem, hcmid⟩ := List.mem_map.mp hmem
  obtain ⟨cx, hcxmem, hcxid⟩ := List.mem_map.mp hxmem
  have hk1len :
      (b.contacts.filter (fun c => decide (c.id < m))).length <
        b.contacts.length :=
    List.length_filter_lt_length_iff_exists.mpr
      ⟨cm, hcmmem, by simp [hcmid]⟩
  have hk2len :
      (b.contacts.filter (fun c => decide (m ≤ c.id))).length <
        b.contacts.length :=
    List.length_filter_lt_length_iff_exists.mpr
      ⟨cx, hcxmem, by simp [hcxid]; omega⟩
  obtain ⟨r1, r2, hfold⟩ :=
    split_step_foldl_success m b.contacts
      ⟨[], b.low, m⟩ ⟨[], m, b.high⟩
      (fun c hc hlt => by
        simp only [KBucket.is_in_range, decide_eq_true_eq]
        exact ⟨(hir c hc).1, Nat.le_of_lt hlt⟩)
      (fun c hc hge => by
        simp only [KBucket.is_in_range, decide_eq_true_eq]
        exact ⟨Nat.not_lt.mp hge, (hir c hc).2⟩)
      (by simp only [List.length_nil]; omega)
      (by simp only [List.length_nil]; omega)
  obtain ⟨hl1, hh1, hl2, hh2, hc1, hc2⟩ :=
    split_step_foldl_characterize m b.contacts _ _ r1 r2 hfold
  simp only [List.nil_append] at hc1 hc2
  have hsplit : b.split = some (r1, r2) := by
    unfold KBucket.split
    rw [hmed]
    exact hfold
  have hfun : (fun c : Contact => decide (m ≤ c.id)) =
      (fun c : Contact => !(decide (c.id < m))) := by
    funext c
    rw [← decide_not]
    exact decide_eq_decide.mpr Nat.not_lt.symm
  refine ⟨m, r1, r2, hmed, hsplit, hl1, hh1, hl2, hh2, hc1, hc2, ?_, ?_, ?_⟩
  · rw [hc1]
    exact List.ne_nil_of_mem
      (List.mem_filter.mpr ⟨hcxmem, by simp [hcxid]; omega⟩)
  · rw [hc2]
    exact List.ne_nil_of_mem
      (List.mem_filter.mpr ⟨hcmmem, by simp [hcmid]⟩)
  · rw [hc1, hc2, hfun]
    exact List.filter_append_perm _ _

/-- C2 amended: for a bucket that satisfies the data-model invariants
(IDs unique and within range, at most K contacts) and holds at least
two contacts, split succeeds with k1 = (low, m), k2 = (m, high) for m
the high median of the contact IDs, contacts with id < m go to k1 and
the others to k2, both children receive at least one contact, and the
children's contacts together are exactly the parent's. -/
theorem c2_split_amended (b : KBucket)
    (h2 : 2 ≤ b.contacts.length)
    (hK : b.contacts.length ≤ Constants.K)
    (hnd : (b.contacts.map (fun c => c.id)).Nodup)
    (hir : ∀ c ∈ b.contacts, b.low ≤ c.id ∧ c.id ≤ b.high) :
    ∃ m k1 k2,
      median_high (b.contacts.map (fun c => c.id)) = some m ∧
      b.split = some (k1, k2) ∧
      k1.low = b.low ∧ k1.high = m ∧ k2.low = m ∧ k2.high = b.high ∧
      k1.contacts = b.contacts.filter (fun c => decide (c.id < m)) ∧
      k2.contacts = b.contacts.filter (fun c => decide (m ≤ c.id)) ∧
      k1.contacts ≠ [] ∧ k2.contacts ≠ [] ∧
      List.Perm (k1.contacts ++ k2.contacts) b.contacts :=
  split_spec b h2 hK hnd hir

/-- Witness for C2 amended: the two-contact bucket {1, 2} over range
(0, 10). -/
theorem c2_split_amended_witness :
    ∃ m k1 k2,
      median_high ((KBucket.mk [⟨1, 0⟩, ⟨2, 0⟩] 0 10).contacts.map
        (fun c => c.id)) = some m ∧
      (KBucket.mk [⟨1, 0⟩, ⟨2, 0⟩] 0 10).split = some (k1, k2) ∧
      k1.low = (KBucket.mk [⟨1, 0⟩, ⟨2, 0⟩] 0 10).low ∧ k1.high = m ∧
      k2.low = m ∧ k2.high = (KBucket.mk [⟨1, 0⟩, ⟨2, 0⟩] 0 10).high ∧
      k1.contacts = (KBucket.mk [⟨1, 0⟩, ⟨2, 0⟩] 0 10).contacts.filter
        (fun c => decide (c.id < m)) ∧
      k2.contacts = (KBucket.mk [⟨1, 0⟩, ⟨2, 0⟩] 0 10).contacts.filter
        (fun c => decide (m ≤ c.id)) ∧
      k1.contacts ≠ [] ∧ k2.contacts ≠ [] ∧
      List.Perm (k1.contacts ++ k2.contacts)
        (KBucket.mk [⟨1, 0⟩, ⟨2, 0⟩] 0 10).contacts :=
  c2_split_amended (KBucket.mk [⟨1, 0⟩, ⟨2, 0⟩] 0 10) (by decide) (by decide)
    (by decide) (by decide)

/- ------------------------------------------------------------------ -/
/- Reachability machinery for the BucketList invariant (C1, C8)        -/
/- ------------------------------------------------------------------ -/

/-- Contiguity of a run of bucket ranges: starting from `lo`, each
bucket's `low` equals the running bound, its `high` strictly exceeds it,
and the run ends exactly at `hi`. -/
def segFrom : Nat → List KBucket → Nat → Prop
  | lo, [], hi => lo = hi
  | lo, b :: bs, hi => b.low = lo ∧ lo < b.high ∧ segFrom b.high bs hi

/-- segFrom splits over append. -/
lemma segFrom_append :
    ∀ (t d : List KBucket) (lo hi : Nat),
      segFrom lo (t ++ d) hi ↔ ∃ mid, segFrom lo t mid ∧ segFrom mid d hi := by
  intro t
  induction t with
  | nil =>
    intro d lo hi
    constructor
    · intro h; exact ⟨lo, rfl, h⟩
    · rintro ⟨mid, hmid, h⟩
      cases hmid
      exact h
  | cons b t ih =>
    intro d lo hi
    constructor
    · rintro ⟨hlow, hlt, hseg⟩
      obtain ⟨mid, h1, h2⟩ := (ih d b.high hi).mp hseg
      exact ⟨mid, ⟨hlow, hlt, h1⟩, h2⟩
    · rintro ⟨mid, ⟨hlow, hlt, h1⟩, h2⟩
      exact ⟨hlow, hlt, (ih d b.high hi).mpr ⟨mid, h1, h2⟩⟩

/-- A contiguous run covers every point in `[lo, hi)`. -/
lemma segFrom_cover :
    ∀ (bs : List KBucket) (lo hi id : Nat),
      segFrom lo bs hi → lo ≤ id → id < hi →
      ∃ b ∈ bs, b.is_in_range id = true := by
  intro bs
  induction bs with
  | nil =>
    intro lo hi id h hlo hhi
    cases h
    omega
  | cons b bs ih =>
    intro lo hi id h hlo hhi
    obtain ⟨hlow, hlt, hseg⟩ := h
    by_cases hhigh : id ≤ b.high
    · refine ⟨b, List.mem_cons_self b bs, ?_⟩
      simp only [KBucket.is_in_range, decide_eq_true_eq]
      omega
    · obtain ⟨b2, hb2, hr2⟩ := ih b.high hi id hseg (by omega) hhi
      exact ⟨b2, List.mem_cons_of_mem b hb2, hr2⟩

/-- Every bucket of a contiguous run starts at or after the run's
start. -/
lemma segFrom_mem_low :
    ∀ (bs : List KBucket) (lo hi : Nat),
      segFrom lo bs hi → ∀ b ∈ bs, lo ≤ b.low := by
  intro bs
  induction bs with
  | nil => intro lo hi _ b hb; cases hb
  | cons b bs ih =>
    intro lo hi h x hx
    obtain ⟨hlow, hlt, hseg⟩ := h
    rcases List.mem_cons.mp hx with rfl | hmem
    · omega
    · have := ih b.high hi hseg x hmem
      omega

/-- In a contiguous run, an earlier bucket ends at or before a later
bucket starts. -/
lemma segFrom_pairwise :
    ∀ (bs : List KBucket) (lo hi : Nat),
      segFrom lo bs hi → bs.Pairwise (fun a b => a.high ≤ b.low) := by
  intro bs
  induction bs with
  | nil => intro lo hi _; exact List.Pairwise.nil
  | cons b bs ih =>
    intro lo hi h
    obtain ⟨hlow, hlt, hseg⟩ := h
    exact List.Pairwise.cons (fun x hx => segFrom_mem_low bs b.high hi hseg x hx)
      (ih b.high hi hseg)

/-- Decomposition of a contiguous run at index `i`. -/
lemma segFrom_decomp (bs : List KBucket) (i : Nat) (h : i < bs.length)
    (lo hi : Nat) (hseg : segFrom lo bs hi) :
    segFrom lo (bs.take i) (bs.get ⟨i, h⟩).low ∧
    (bs.get ⟨i, h⟩).low < (bs.get ⟨i, h⟩).high ∧
    segFrom (bs.get ⟨i, h⟩).high (bs.drop (i + 1)) hi := by
  rw [← List.take_append_drop i bs] at hseg
  obtain ⟨mid, h1, h2⟩ := (segFrom_append _ _ _ _).mp hseg
  rw [List.drop_eq_getElem_cons h] at h2
  obtain ⟨hlow, hlt, hseg2⟩ := h2
  have hg : bs[i] = bs.get ⟨i, h⟩ := rfl
  rw [hg] at hlow hlt hseg2
  rw [← hlow] at h1 hlt
  exact ⟨h1, hlt, hseg2⟩

/-- Rebuilding a contiguous run after replacing the bucket at `i` with
a same-range bucket. -/
lemma segFrom_set (bs : List KBucket) (i : Nat) (h : i < bs.length)
    (lo hi : Nat) (hseg : segFrom lo bs hi) (b' : KBucket)
    (hlow : b'.low = (bs.get ⟨i, h⟩).low)
    (hhigh : b'.high = (bs.get ⟨i, h⟩).high) :
    segFrom lo (bs.set i b') hi := by
  obtain ⟨h1, hlt, h2⟩ := segFrom_decomp bs i h lo hi hseg
  rw [List.set_eq_take_cons_drop b' h]
  exact (segFrom_append _ _ _ _).mpr
    ⟨b'.low, by rw [hlow]; exact h1, by
      refine ⟨rfl, ?_, ?_⟩
      · rw [hlow, hhigh]; exact hlt
      · rw [hhigh]; exact h2⟩

/-- The data-model invariant maintained by BucketList.add_contact:
the bucket ranges are contiguous from 0 to 2^160 and nondegenerate,
each contact sits inside its bucket's range, contact IDs are unique
within a bucket, and no bucket exceeds K contacts. -/
structure Inv (bl : BucketList) : Prop where
  seg : segFrom 0 bl.buckets idSpace
  inRange : ∀ b ∈ bl.buckets, ∀ c ∈ b.contacts, b.low ≤ c.id ∧ c.id ≤ b.high
  nodup : ∀ b ∈ bl.buckets, (b.contacts.map (fun c => c.id)).Nodup
  small : ∀ b ∈ bl.buckets, b.contacts.length ≤ Constants.K

/-- The bucket lists reachable from the initial full-range bucket by
successful add_contact calls.  The bound `c.id < idSpace` is the range
check performed by `ID.__init__` on every ID in the system. -/
inductive Reachable : BucketList → Prop where
  | base (ourId : Nat) : Reachable (BucketList.init ourId)
  | step {bl bl' : BucketList} {fuel now : Nat} {c : Contact}
      (h : Reachable bl) (hid : c.id < idSpace)
      (hadd : bl.add_contact fuel now c = some bl') : Reachable bl'

/-- The initial bucket list satisfies the invariant. -/
lemma inv_init (ourId : Nat) : Inv (BucketList.init ourId) := by
  refine ⟨?_, ?_, ?_, ?_⟩
  · refine ⟨rfl, ?_, rfl⟩
    unfold idSpace
    positivity
  · intro b hb c hc
    simp only [BucketList.init, List.mem_singleton] at hb
    subst hb
    cases hc
  · intro b hb
    simp only [BucketList.init, List.mem_singleton] at hb
    subst hb
    exact List.nodup_nil
  · intro b hb
    simp only [BucketList.init, List.mem_singleton] at hb
    subst hb
    simp [Constants.K]

/-- pyInsert at a non-negative index is plain insertion. -/
lemma pyInsert_nat {α : Type} (l : List α) (j : Nat) (a : α) :
    pyInsert l (j : Int) a = insertAt l j a := by
  simp only [pyInsert]
  have h0 : ¬ ((j : Int) < 0) := by omega
  rw [if_neg h0]
  have h1 : (max 0 (j : Int)).toNat = j := by omega
  rw [h1]

/-- Replacing index `i` and inserting right after it splices the two
new elements in place of the old one. -/
lemma insertAt_set {α : Type} :
    ∀ (bs : List α) (i : Nat) (k1 k2 : α), i < bs.length →
      insertAt (bs.set i k1) (i + 1) k2 =
        bs.take i ++ k1 :: k2 :: bs.drop (i + 1) := by
  intro bs
  induction bs with
  | nil => intro i k1 k2 h; cases h
  | cons b bs ih =>
    intro i k1 k2 h
    cases i with
    | zero =>
      simp only [List.set_cons_zero, List.take_zero, List.nil_append,
        List.drop_succ_cons, List.drop_zero]
      simp [insertAt]
    | succ i =>
      have hlen : i < bs.length := by
        simp only [List.length_cons] at h
        omega
      simp only [List.set_cons_succ, List.take_succ_cons, List.drop_succ_cons]
      show b :: insertAt (bs.set i k1) (i + 1) k2 = _
      rw [ih i k1 k2 hlen]
      simp

/-- Rebuilding a contiguous run after splicing the two split children
in place of the bucket at `i`. -/
lemma segFrom_split (bs : List KBucket) (i : Nat) (h : i < bs.length)
    (lo hi : Nat) (hseg : segFrom lo bs hi) (k1 k2 : KBucket) (m : Nat)
    (h1l : k1.low = (bs.get ⟨i, h⟩).low) (h1h : k1.high = m)
    (h2l : k2.low = m) (h2h : k2.high = (bs.get ⟨i, h⟩).high)
    (hlom : (bs.get ⟨i, h⟩).low < m) (hmhi : m < (bs.get ⟨i, h⟩).high) :
    segFrom lo (bs.take i ++ k1 :: k2 :: bs.drop (i + 1)) hi := by
  obtain ⟨ht, hlt, hd⟩ := segFrom_decomp bs i h lo hi hseg
  apply (segFrom_append _ _ _ _).mpr
  refine ⟨k1.low, by rw [h1l]; exact ht, rfl, ?_, ?_, ?_, ?_⟩
  · rw [h1l, h1h]; exact hlom
  · rw [h2l, h1h]
  · rw [h1h, h2h]; exact hmhi
  · rw [h2h]; exact hd

/-- KBucket.contains as an existential. -/
lemma contains_iff (b : KBucket) (id : Nat) :
    b.contains id = true ↔ ∃ x ∈ b.contacts, x.id = id := by
  simp [KBucket.contains]

/-- Overwriting the first entry with a matching ID leaves the ID list
unchanged. -/
lemma set_findIdx_map_id :
    ∀ (cs : List Contact) (c : Contact), (∃ x ∈ cs, x.id = c.id) →
      (cs.set (cs.findIdx (fun x => decide (x.id = c.id))) c).map
          (fun x => x.id) =
        cs.map (fun x => x.id) := by
  intro cs
  induction cs with
  | nil => rintro c ⟨x, hx, -⟩; cases hx
  | cons a cs ih =>
    rintro c hex
    by_cases ha : a.id = c.id
    · have hfi : (a :: cs).findIdx (fun x => decide (x.id = c.id)) = 0 := by
        rw [List.findIdx_cons]
        simp [ha]
      rw [hfi]
      simp [ha]
    · have hfi : (a :: cs).findIdx (fun x => decide (x.id = c.id)) =
          cs.findIdx (fun x => decide (x.id = c.id)) + 1 := by
        rw [List.findIdx_cons]
        simp [ha]
      rw [hfi]
      have hex2 : ∃ x ∈ cs, x.id = c.id := by
        obtain ⟨x, hx, hxid⟩ := hex
        rcases List.mem_cons.mp hx with rfl | hmem
        · exact absurd hxid ha
        · exact ⟨x, hmem, hxid⟩
      show (a :: cs.set _ c).map (fun x => x.id) = _
      simp only [List.map_cons]
      rw [ih c hex2]

/-- replace_contact keeps the bucket's ID list (hence length) intact
when the replaced ID is present. -/
lemma replace_contact_map_id (kb : KBucket) (c : Contact)
    (h : kb.contains c.id = true) :
    (kb.replace_contact c).contacts.map (fun x => x.id) =
      kb.contacts.map (fun x => x.id) := by
  unfold KBucket.replace_contact
  exact set_findIdx_map_id kb.contacts c ((contains_iff kb c.id).mp h)

/-- The resolved index of `_get_kbucket_index` on a hit. -/
lemma get_kbucket_index_eq (bl : BucketList) (id : Nat) (i : Nat)
    (hfind : find_bucket_index bl.buckets id = some i) :
    bl.get_kbucket_index id = (i : Int) := by
  unfold BucketList.get_kbucket_index
  rw [hfind]

/-- add_contact, replace branch: the located bucket contains the ID. -/
lemma add_contact_replace_eq (fuel now : Nat) (bl : BucketList) (c0 : Contact)
    (hne : ¬ bl.our_id = c0.id) (i : Nat) (hi : i < bl.buckets.length)
    (hfind : find_bucket_index bl.buckets c0.id = some i)
    (hcont : (bl.buckets.get ⟨i, hi⟩).contains c0.id = true) :
    bl.add_contact (fuel + 1) now c0 =
      some { bl with buckets := (bl.buckets.set i
        ((bl.buckets.get ⟨i, hi⟩).replace_contact ⟨c0.id, now⟩)) } := by
  have hidx := get_kbucket_index_eq bl c0.id i hfind
  rw [BucketList.add_contact, if_neg hne, hidx, pyGet_nat bl.buckets i hi,
    Option.some_bind, if_pos hcont, pySet_nat bl.buckets i _ hi,
    Option.map_some']

/-- add_contact, plain append branch: not contained, not full. -/
lemma add_contact_append_eq (fuel now : Nat) (bl : BucketList) (c0 : Contact)
    (hne : ¬ bl.our_id = c0.id) (i : Nat) (hi : i < bl.buckets.length)
    (hfind : find_bucket_index bl.buckets c0.id = some i)
    (hcont : (bl.buckets.get ⟨i, hi⟩).contains c0.id = false)
    (hfull : (bl.buckets.get ⟨i, hi⟩).is_full = false) :
    bl.add_contact (fuel + 1) now c0 =
      some { bl with buckets := (bl.buckets.set i
        ⟨(bl.buckets.get ⟨i, hi⟩).contacts ++ [⟨c0.id, now⟩],
          (bl.buckets.get ⟨i, hi⟩).low, (bl.buckets.get ⟨i, hi⟩).high⟩) } := by
  have hidx := get_kbucket_index_eq bl c0.id i hfind
  have hrange := find_bucket_index_in_range bl.buckets c0.id i hi hfind
  have hlen : (bl.buckets.get ⟨i, hi⟩).contacts.length < Constants.K := by
    have := hfull
    unfold KBucket.is_full at this
    simpa using this
  have hadd : (bl.buckets.get ⟨i, hi⟩).add_contact ⟨c0.id, now⟩ =
      some ⟨(bl.buckets.get ⟨i, hi⟩).contacts ++ [⟨c0.id, now⟩],
        (bl.buckets.get ⟨i, hi⟩).low, (bl.buckets.get ⟨i, hi⟩).high⟩ :=
    KBucket.add_contact_eq_some.mpr ⟨hlen, hrange, rfl⟩
  rw [BucketList.add_contact, if_neg hne, hidx, pyGet_nat bl.buckets i hi,
    Option.some_bind, if_neg (by rw [hcont]; exact Bool.false_ne_true),
    if_neg (by rw [hfull]; simp),
    hadd, Option.some_bind, pySet_nat bl.buckets i _ hi, Option.map_some']

/-- add_contact, split branch: not contained, full, splittable. -/
lemma add_contact_split_eq (fuel now : Nat) (bl : BucketList) (c0 : Contact)
    (hne : ¬ bl.our_id = c0.id) (i : Nat) (hi : i < bl.buckets.length)
    (hfind : find_bucket_index bl.buckets c0.id = some i)
    (hcont : (bl.buckets.get ⟨i, hi⟩).contains c0.id = false)
    (hfull : (bl.buckets.get ⟨i, hi⟩).is_full = true)
    (hcan : bl.can_split (bl.buckets.get ⟨i, hi⟩) = true)
    (k1 k2 : KBucket)
    (hsplit : (bl.buckets.get ⟨i, hi⟩).split = some (k1, k2)) :
    bl.add_contact (fuel + 1) now c0 =
      BucketList.add_contact fuel now
        { bl with buckets :=
            (bl.buckets.take i ++ k1 :: k2 :: bl.buckets.drop (i + 1)) }
        ⟨c0.id, now⟩ := by
  have hidx := get_kbucket_index_eq bl c0.id i hfind
  have hcast : (i : Int) + 1 = ((i + 1 : Nat) : Int) := by omega
  have hset : (bl.buckets.set i k1).length = bl.buckets.length :=
    List.length_set bl.buckets i k1
  rw [BucketList.add_contact, if_neg hne, hidx, pyGet_nat bl.buckets i hi,
    Option.some_bind, if_neg (by rw [hcont]; exact Bool.false_ne_true), if_pos hfull, if_pos hcan,
    hsplit, Option.some_bind, pySet_nat bl.buckets i _ hi, Option.some_bind,
    hcast, pyInsert_nat, insertAt_set bl.buckets i k1 k2 hi]

/-- add_contact, eviction branch: not contained, full, not splittable —
the source raises (undefined name `our_contact`), modelled as `none`. -/
lemma add_contact_nosplit_eq (fuel now : Nat) (bl : BucketList)
    (c0 : Contact) (hne : ¬ bl.our_id = c0.id) (i : Nat)
    (hi : i < bl.buckets.length)
    (hfind : find_bucket_index bl.buckets c0.id = some i)
    (hcont : (bl.buckets.get ⟨i, hi⟩).contains c0.id = false)
    (hfull : (bl.buckets.get ⟨i, hi⟩).is_full = true)
    (hcan : bl.can_split (bl.buckets.get ⟨i, hi⟩) = false) :
    bl.add_contact (fuel + 1) now c0 = none := by
  have hidx := get_kbucket_index_eq bl c0.id i hfind
  rw [BucketList.add_contact, if_neg hne, hidx, pyGet_nat bl.buckets i hi,
    Option.some_bind, if_neg (by rw [hcont]; exact Bool.false_ne_true), if_pos hfull,
    if_neg (by rw [hcan]; exact Bool.false_ne_true)]

/-- Range bounds transfer along an equality of ID lists. -/
lemma inRange_of_map_id_eq (kb : KBucket) (cs : List Contact)
    (hmap : cs.map (fun c => c.id) = kb.contacts.map (fun c => c.id))
    (hir : ∀ c ∈ kb.contacts, kb.low ≤ c.id ∧ c.id ≤ kb.high) :
    ∀ c ∈ cs, kb.low ≤ c.id ∧ c.id ≤ kb.high := by
  intro c hc
  have h1 : c.id ∈ cs.map (fun c => c.id) := List.mem_map_of_mem _ hc
  rw [hmap] at h1
  obtain ⟨c2, hc2, hce⟩ := List.mem_map.mp h1
  rw [← hce]
  exact hir c2 hc2

/-- The invariant survives replacing one bucket by a bucket with the
same range that itself satisfies the per-bucket conditions. -/
lemma inv_set (bl : BucketList) (hinv : Inv bl) (i : Nat)
    (hi : i < bl.buckets.length) (b' : KBucket)
    (hlow : b'.low = (bl.buckets.get ⟨i, hi⟩).low)
    (hhigh : b'.high = (bl.buckets.get ⟨i, hi⟩).high)
    (hir : ∀ c ∈ b'.contacts, b'.low ≤ c.id ∧ c.id ≤ b'.high)
    (hnd : (b'.contacts.map (fun c => c.id)).Nodup)
    (hsm : b'.contacts.length ≤ Constants.K) :
    Inv { bl with buckets := bl.buckets.set i b' } := by
  refine ⟨?_, ?_, ?_, ?_⟩
  · exact segFrom_set bl.buckets i hi 0 idSpace hinv.seg b' hlow hhigh
  · intro b hb c hc
    rcases List.mem_or_eq_of_mem_set hb with hmem | rfl
    · exact hinv.inRange b hmem c hc
    · exact hir c hc
  · intro b hb
    rcases List.mem_or_eq_of_mem_set hb with hmem | rfl
    · exact hinv.nodup b hmem
    · exact hnd
  · intro b hb
    rcases List.mem_or_eq_of_mem_set hb with hmem | rfl
    · exact hinv.small b hmem
    · exact hsm

/-- Membership after splicing two buckets in place of one. -/
lemma mem_splice {α : Type} {bs : List α} {i : Nat} {k1 k2 x : α}
    (hx : x ∈ bs.take i ++ k1 :: k2 :: bs.drop (i + 1)) :
    x = k1 ∨ x = k2 ∨ x ∈ bs := by
  rcases List.mem_append.mp hx with h | h
  · right; right; exact (List.take_sublist i bs).subset h
  · rcases List.mem_cons.mp h with rfl | h2
    · left; rfl
    · rcases List.mem_cons.mp h2 with rfl | h3
      · right; left; rfl
      · right; right; exact (List.drop_sublist (i + 1) bs).subset h3

/-- The invariant survives splicing the two split children in place of
the split bucket. -/
lemma inv_splice (bl : BucketList) (hinv : Inv bl) (i : Nat)
    (hi : i < bl.buckets.length) (k1 k2 : KBucket) (m : Nat)
    (h1l : k1.low = (bl.buckets.get ⟨i, hi⟩).low) (h1h : k1.high = m)
    (h2l : k2.low = m) (h2h : k2.high = (bl.buckets.get ⟨i, hi⟩).high)
    (hlom : (bl.buckets.get ⟨i, hi⟩).low < m)
    (hmhi : m < (bl.buckets.get ⟨i, hi⟩).high)
    (hir1 : ∀ c ∈ k1.contacts, k1.low ≤ c.id ∧ c.id ≤ k1.high)
    (hir2 : ∀ c ∈ k2.contacts, k2.low ≤ c.id ∧ c.id ≤ k2.high)
    (hnd1 : (k1.contacts.map (fun c => c.id)).Nodup)
    (hnd2 : (k2.contacts.map (fun c => c.id)).Nodup)
    (hsm1 : k1.contacts.length ≤ Constants.K)
    (hsm2 : k2.contacts.length ≤ Constants.K) :
    Inv { bl with buckets :=
        (bl.buckets.take i ++ k1 :: k2 :: bl.buckets.drop (i + 1)) } := by
  refine ⟨?_, ?_, ?_, ?_⟩
  · exact segFrom_split bl.buckets i hi 0 idSpace hinv.seg k1 k2 m
      h1l h1h h2l h2h hlom hmhi
  · intro b hb c hc
    rcases mem_splice hb with rfl | rfl | hmem
    · exact hir1 c hc
    · exact hir2 c hc
    · exact hinv.inRange b hmem c hc
  · intro b hb
    rcases mem_splice hb with rfl | rfl | hmem
    · exact hnd1
    · exact hnd2
    · exact hinv.nodup b hmem
  · intro b hb
    rcases mem_splice hb with rfl | rfl | hmem
    · exact hsm1
    · exact hsm2
    · exact hinv.small b hmem

/-- BucketList.add_contact preserves the data-model invariant. -/
lemma inv_add_contact :
    ∀ (fuel now : Nat) (bl : BucketList) (c0 : Contact) (bl' : BucketList),
      Inv bl → c0.id < idSpace → bl.add_contact fuel now c0 = some bl' →
      Inv bl' := by
  intro fuel
  induction fuel with
  | zero =>
    intro now bl c0 bl' _ _ h
    rw [BucketList.add_contact] at h
    cases h
  | succ fuel ih =>
    intro now bl c0 bl' hinv hid hadd
    by_cases hne : bl.our_id = c0.id
    · rw [BucketList.add_contact, if_pos hne] at hadd
      cases hadd
    · have hcover : ∃ b ∈ bl.buckets, b.is_in_range c0.id = true :=
        segFrom_cover bl.buckets 0 idSpace c0.id hinv.seg (Nat.zero_le _) hid
      have hfind_ne : find_bucket_index bl.buckets c0.id ≠ none := by
        intro hnone
        obtain ⟨b, hb, hbr⟩ := hcover
        have hall := (find_bucket_index_eq_none bl.buckets c0.id).mp hnone b hb
        rw [hbr] at hall
        cases hall
      obtain ⟨i, hfind⟩ := Option.ne_none_iff_exists'.mp hfind_ne
      have hi := find_bucket_index_lt bl.buckets c0.id i hfind
      have hkbmem : bl.buckets.get ⟨i, hi⟩ ∈ bl.buckets :=
        List.get_mem bl.buckets i hi
      by_cases hcont : (bl.buckets.get ⟨i, hi⟩).contains c0.id = true
      · rw [add_contact_replace_eq fuel now bl c0 hne i hi hfind hcont] at hadd
        injection hadd with hadd
        subst hadd
        have hmap := replace_contact_map_id (bl.buckets.get ⟨i, hi⟩)
          ⟨c0.id, now⟩ hcont
        apply inv_set bl hinv i hi
          ((bl.buckets.get ⟨i, hi⟩).replace_contact ⟨c0.id, now⟩) rfl rfl
        · exact inRange_of_map_id_eq (bl.buckets.get ⟨i, hi⟩) _ hmap
            (hinv.inRange _ hkbmem)
        · rw [hmap]
          exact hinv.nodup _ hkbmem
        · have h1 := congrArg List.length hmap
          simp only [List.length_map] at h1
          rw [h1]
          exact hinv.small _ hkbmem
      · have hcont' : (bl.buckets.get ⟨i, hi⟩).contains c0.id = false := by
          simpa using hcont
        by_cases hfull : (bl.buckets.get ⟨i, hi⟩).is_full = true
        · by_cases hcan : bl.can_split (bl.buckets.get ⟨i, hi⟩) = true
          · -- split branch
            have hlenK : (bl.buckets.get ⟨i, hi⟩).contacts.length =
                Constants.K := by
              have h1 := hinv.small _ hkbmem
              have h2 : Constants.K ≤
                  (bl.buckets.get ⟨i, hi⟩).contacts.length := by
                have := hfull
                unfold KBucket.is_full at this
                simpa using this
              omega
            have hK2 : (2 : Nat) ≤ Constants.K := by
              unfold Constants.K
              omega
            have h2le : 2 ≤ (bl.buckets.get ⟨i, hi⟩).contacts.length := by
              omega
            obtain ⟨m, k1, k2, hmed, hsplit, h1l, h1h, h2l, h2h, hf1, hf2,
              hne1, hne2, hpm⟩ :=
              split_spec (bl.buckets.get ⟨i, hi⟩) h2le
                (hinv.small _ hkbmem) (hinv.nodup _ hkbmem)
                (hinv.inRange _ hkbmem)
            -- strict position of the median inside the bucket range
            obtain ⟨m2, hmed2, hm2mem, ⟨x, hxmem, hxlt⟩, hyfact⟩ :=
              median_high_facts
                ((bl.buckets.get ⟨i, hi⟩).contacts.map (fun c => c.id))
                (hinv.nodup _ hkbmem) (by rw [List.length_map]; omega)
            have hm2 : m2 = m := by
              rw [hmed] at hmed2
              exact (Option.some_inj.mp hmed2).symm
            rw [hm2] at hxlt hyfact
            obtain ⟨y, hymem, hylt⟩ := hyfact (by
              simp only [List.length_map, hlenK]
              unfold Constants.K
              omega)
            obtain ⟨cx, hcxmem, hcxid⟩ := List.mem_map.mp hxmem
            obtain ⟨cy, hcymem, hcyid⟩ := List.mem_map.mp hymem
            have hlom : (bl.buckets.get ⟨i, hi⟩).low < m := by
              have := (hinv.inRange _ hkbmem cx hcxmem).1
              omega
            have hmhi : m < (bl.buckets.get ⟨i, hi⟩).high := by
              have := (hinv.inRange _ hkbmem cy hcymem).2
              omega
            rw [add_contact_split_eq fuel now bl c0 hne i hi hfind hcont'
              hfull hcan k1 k2 hsplit] at hadd
            apply ih now _ ⟨c0.id, now⟩ bl' _ hid hadd
            apply inv_splice bl hinv i hi k1 k2 m h1l h1h h2l h2h hlom hmhi
            · intro c hc
              rw [hf1] at hc
              have hcm := List.mem_filter.mp hc
              have hb := hinv.inRange _ hkbmem c hcm.1
              have hlt : c.id < m := by simpa using hcm.2
              rw [h1l, h1h]
              omega
            · intro c hc
              rw [hf2] at hc
              have hcm := List.mem_filter.mp hc
              have hb := hinv.inRange _ hkbmem c hcm.1
              have hge : m ≤ c.id := by simpa using hcm.2
              rw [h2l, h2h]
              omega
            · rw [hf1]
              exact (hinv.nodup _ hkbmem).sublist
                (List.Sublist.map _ (List.filter_sublist _))
            · rw [hf2]
              exact (hinv.nodup _ hkbmem).sublist
                (List.Sublist.map _ (List.filter_sublist _))
            · rw [hf1]
              calc (List.filter (fun c => decide (c.id < m))
                    (bl.buckets.get ⟨i, hi⟩).contacts).length ≤
                  (bl.buckets.get ⟨i, hi⟩).contacts.length :=
                    List.length_filter_le _ _
                _ ≤ Constants.K := hinv.small _ hkbmem
            · rw [hf2]
              calc (List.filter (fun c => decide (m ≤ c.id))
                    (bl.buckets.get ⟨i, hi⟩).contacts).length ≤
                  (bl.buckets.get ⟨i, hi⟩).contacts.length :=
                    List.length_filter_le _ _
                _ ≤ Constants.K := hinv.small _ hkbmem
          · have hcan' : bl.can_split (bl.buckets.get ⟨i, hi⟩) = false := by
              simpa using hcan
            rw [add_contact_nosplit_eq fuel now bl c0 hne i hi hfind hcont'
              hfull hcan'] at hadd
            cases hadd
        · have hfull' : (bl.buckets.get ⟨i, hi⟩).is_full = false := by
            simpa using hfull
          rw [add_contact_append_eq fuel now bl c0 hne i hi hfind hcont'
            hfull'] at hadd
          injection hadd with hadd
          subst hadd
          have hrange := find_bucket_index_in_range bl.buckets c0.id i hi hfind
          have hbounds : (bl.buckets.get ⟨i, hi⟩).low ≤ c0.id ∧
              c0.id ≤ (bl.buckets.get ⟨i, hi⟩).high := by
            have := hrange
            unfold KBucket.is_in_range at this
            simpa using this
          have hnotin : c0.id ∉
              (bl.buckets.get ⟨i, hi⟩).contacts.map (fun c => c.id) := by
            intro hmem
            obtain ⟨c2, hc2, hc2id⟩ := List.mem_map.mp hmem
            have : (bl.buckets.get ⟨i, hi⟩).contains c0.id = true :=
              (contains_iff _ _).mpr ⟨c2, hc2, hc2id⟩
            rw [hcont'] at this
            cases this
          apply inv_set bl hinv i hi
            (KBucket.mk ((bl.buckets.get ⟨i, hi⟩).contacts ++
              [Contact.mk c0.id now])
              (bl.buckets.get ⟨i, hi⟩).low (bl.buckets.get ⟨i, hi⟩).high)
            rfl rfl
          · intro c hc
            rcases List.mem_append.mp hc with hmem | hmem
            · exact hinv.inRange _ hkbmem c hmem
            · rcases List.mem_singleton.mp hmem with rfl
              exact hbounds
          · simp only [List.map_append, List.map_cons, List.map_nil]
            rw [List.nodup_append]
            refine ⟨hinv.nodup _ hkbmem, List.nodup_singleton _, ?_⟩
            intro a ha hb
            rcases List.mem_singleton.mp hb with rfl
            exact hnotin ha
          · have hlt : (bl.buckets.get ⟨i, hi⟩).contacts.length <
                Constants.K := by
              have := hfull'
              unfold KBucket.is_full at this
              simpa using this
            simp only [List.length_append, List.length_cons, List.length_nil]
            omega

/-- Every reachable bucket list satisfies the invariant. -/
lemma reachable_inv {bl : BucketList} (h : Reachable bl) : Inv bl := by
  induction h with
  | base ourId => exact inv_init ourId
  | step h hid hadd ih => exact inv_add_contact _ _ _ _ _ ih hid hadd

/-- Chaining a successful run of add_contact calls keeps the state
reachable. -/
lemma reachable_of_foldlM :
    ∀ (ids : List Nat) (bl bl' : BucketList),
      Reachable bl → (∀ k ∈ ids, k < idSpace) →
      ids.foldlM (fun bl k => bl.add_contact 200 0 ⟨k, 0⟩) bl = some bl' →
      Reachable bl' := by
  intro ids
  induction ids with
  | nil =>
    intro bl bl' h _ hfold
    simp only [List.foldlM_nil] at hfold
    cases hfold
    exact h
  | cons k ids ih =>
    intro bl bl' h hlt hfold
    rw [List.foldlM_cons] at hfold
    cases hstep : bl.add_contact 200 0 ⟨k, 0⟩ with
    | none =>
      rw [hstep] at hfold
      cases hfold
    | some bmid =>
      rw [hstep] at hfold
      exact ih bmid bl'
        (Reachable.step h (hlt k (List.mem_cons_self k ids)) hstep)
        (fun k' hk' => hlt k' (List.mem_cons_of_mem k hk'))
        (by simpa using hfold)

/-- A concrete run: our ID is 2^159 and the contacts 0..20 are added
in order.  The 21st insertion forces a split at the high median 10. -/
def c1Run : Option BucketList :=
  (List.range 21).foldlM
    (fun bl k => bl.add_contact 200 0 ⟨k, 0⟩) (BucketList.init (2 ^ 159))

/-- The bucket list produced by `c1Run`. -/
def c1State : BucketList := c1Run.getD (BucketList.init 0)

/-- The run's result is reachable. -/
lemma c1State_reachable : Reachable c1State := by
  apply reachable_of_foldlM (List.range 21) (BucketList.init (2 ^ 159))
    c1State (Reachable.base _)
  · intro k hk
    have h21 := List.mem_range.mp hk
    have h2 : (21 : Nat) ≤ idSpace := by
      unfold idSpace
      norm_num
    omega
  · decide

/-- C1 counterexample: after adding contacts 0..20 to the initial
bucket list with our ID 2^159, the split leaves two buckets with
inclusive ranges (0, 10) and (10, 2^160); the ID 10 lies in the range
of both, refuting the claim that every ID lies in the range of exactly
one bucket and that no two bucket ranges overlap. -/
theorem c1_counterexample :
    Reachable c1State ∧
    c1State.buckets.countP (fun b => b.is_in_range 10) = 2 :=
  ⟨c1State_reachable, by decide⟩

/-- C1 amended: for every reachable bucket list, the ranges are
contiguous from 0 to 2^160 with nondegenerate buckets (`segFrom`),
every ID below 2^160 lies in the range of at least one bucket, and two
distinct buckets' ranges can only intersect in the single shared
boundary point where the earlier bucket's high equals the later
bucket's low. -/
theorem c1_partition_amended (bl : BucketList) (h : Reachable bl) :
    segFrom 0 bl.buckets idSpace ∧
    (∀ id, id < idSpace → ∃ b ∈ bl.buckets, b.is_in_range id = true) ∧
    bl.buckets.Pairwise (fun a b => a.high ≤ b.low ∧
      ∀ id, a.is_in_range id = true → b.is_in_range id = true →
        id = a.high ∧ a.high = b.low) := by
  have hinv := reachable_inv h
  refine ⟨hinv.seg, ?_, ?_⟩
  · intro id hid
    exact segFrom_cover bl.buckets 0 idSpace id hinv.seg (Nat.zero_le _) hid
  · have hpw := segFrom_pairwise bl.buckets 0 idSpace hinv.seg
    refine hpw.imp ?_
    intro a b hle
    refine ⟨hle, ?_⟩
    intro id hia hib
    unfold KBucket.is_in_range at hia hib
    simp only [decide_eq_true_eq] at hia hib
    omega

/-- Witness for C1 amended at the initial bucket list with our ID 5. -/
theorem c1_partition_amended_witness :
    segFrom 0 (BucketList.init 5).buckets idSpace ∧
    (∀ id, id < idSpace → ∃ b ∈ (BucketList.init 5).buckets,
      b.is_in_range id = true) ∧
    (BucketList.init 5).buckets.Pairwise (fun a b => a.high ≤ b.low ∧
      ∀ id, a.is_in_range id = true → b.is_in_range id = true →
        id = a.high ∧ a.high = b.low) :=
  c1_partition_amended (BucketList.init 5) (Reachable.base 5)

/-- C8 counterexample: in the reachable state `c1State` the ID 10 is
already present (in the second bucket), yet adding a contact with ID
10 again appends a duplicate entry into the first bucket — the total
contact count grows from 21 to 22 instead of taking the
replace_contact path. -/
theorem c8_counterexample :
    Reachable c1State ∧
    10 ∈ c1State.all_contacts.map (fun c => c.id) ∧
    c1State.all_contacts.length = 21 ∧
    (c1State.add_contact 200 1 ⟨10, 1⟩).map
      (fun bl => bl.all_contacts.length) = some 22 :=
  ⟨c1State_reachable, by decide, by decide, by decide⟩

/-- Replacing one bucket by a bucket with the same ID list leaves the
flattened ID list of the bucket list unchanged. -/
lemma flatMap_map_id_set :
    ∀ (bs : List KBucket) (i : Nat) (hi : i < bs.length) (b' : KBucket),
      b'.contacts.map (fun c => c.id) =
        (bs.get ⟨i, hi⟩).contacts.map (fun c => c.id) →
      ((bs.set i b').flatMap (fun b => b.contacts)).map (fun c => c.id) =
        (bs.flatMap (fun b => b.contacts)).map (fun c => c.id) := by
  intro bs
  induction bs with
  | nil => intro i hi; cases hi
  | cons b bs ih =>
    intro i hi b' hmap
    cases i with
    | zero =>
      have hmap' : b'.contacts.map (fun c => c.id) =
          b.contacts.map (fun c => c.id) := hmap
      simp only [List.set_cons_zero, List.flatMap_cons, List.map_append]
      rw [hmap']
    | succ i =>
      have hlen : i < bs.length := by
        simp only [List.length_cons] at hi
        omega
      have hmap' : b'.contacts.map (fun c => c.id) =
          (bs.get ⟨i, hlen⟩).contacts.map (fun c => c.id) := hmap
      simp only [List.set_cons_succ, List.flatMap_cons, List.map_append]
      rw [ih i hlen b' hmap']

/-- C8 amended: when the ID of the contact being re-added is contained
in the bucket that `get_kbucket` locates for it (the first bucket whose
range holds the ID), add_contact takes the replace_contact path: it
succeeds and the bucket list's contact-ID sequence is unchanged. -/
theorem c8_readd_amended (fuel now : Nat) (bl : BucketList) (c0 : Contact)
    (i : Nat) (hi : i < bl.buckets.length)
    (hne : ¬ bl.our_id = c0.id)
    (hfind : find_bucket_index bl.buckets c0.id = some i)
    (hcont : (bl.buckets.get ⟨i, hi⟩).contains c0.id = true) :
    ∃ bl', bl.add_contact (fuel + 1) now c0 = some bl' ∧
      bl'.all_contacts.map (fun c => c.id) =
        bl.all_contacts.map (fun c => c.id) := by
  refine ⟨_, add_contact_replace_eq fuel now bl c0 hne i hi hfind hcont, ?_⟩
  have hmap := replace_contact_map_id (bl.buckets.get ⟨i, hi⟩)
    ⟨c0.id, now⟩ hcont
  exact flatMap_map_id_set bl.buckets i hi _ hmap

/-- Witness for C8 amended: a single bucket holding the contact with
ID 3, re-adding ID 3. -/
theorem c8_readd_amended_witness :
    ∃ bl', (BucketList.mk [⟨[⟨3, 5⟩], 0, idSpace⟩] 1).add_contact 201 9
        ⟨3, 7⟩ = some bl' ∧
      bl'.all_contacts.map (fun c => c.id) =
        (BucketList.mk [⟨[⟨3, 5⟩], 0, idSpace⟩] 1).all_contacts.map
          (fun c => c.id) :=
  c8_readd_amended 200 9 (BucketList.mk [⟨[⟨3, 5⟩], 0, idSpace⟩] 1) ⟨3, 7⟩ 0
    (by decide) (by decide) (by decide) (by decide)

end Kademlia
